import Mathlib

/-!
# LC-3 virtual machine: helpers, condition flags, memory access, image loader

A shallow embedding of `src/lc3.c`.  Every `uint16_t` is a natural number; the
places where C converts a wider `int` result back to `uint16_t` are written as
an explicit reduction modulo `2 ^ 16` (`u16`).  The two global arrays `memory`
and `reg` are the two fields of `Machine`, and every C function that touches
them becomes a function from machines to machines.
-/

namespace LC3

/-! ## Constants -/

/-- Number of memory cells: `#define MEMORY_MAX (1 << 16)`. -/
def MEMORY_MAX : Nat := 1 <<< 16

/-- Register index of `R0`. -/
def R_R0 : Nat := 0

/-- Register index of `R7`. -/
def R_R7 : Nat := 7

/-- Register index of the program counter. -/
def R_PC : Nat := 8

/-- Register index of the condition-flag register. -/
def R_COND : Nat := 9

/-- Number of registers. -/
def R_COUNT : Nat := 10

/-- Opcode of BR. -/
def OP_BR : Nat := 0

/-- Opcode of ADD. -/
def OP_ADD : Nat := 1

/-- Opcode of LD. -/
def OP_LD : Nat := 2

/-- Opcode of ST. -/
def OP_ST : Nat := 3

/-- Opcode of JSR. -/
def OP_JSR : Nat := 4

/-- Opcode of AND. -/
def OP_AND : Nat := 5

/-- Opcode of LDR. -/
def OP_LDR : Nat := 6

/-- Opcode of STR. -/
def OP_STR : Nat := 7

/-- Opcode of RTI (unused). -/
def OP_RTI : Nat := 8

/-- Opcode of NOT. -/
def OP_NOT : Nat := 9

/-- Opcode of LDI. -/
def OP_LDI : Nat := 10

/-- Opcode of STI. -/
def OP_STI : Nat := 11

/-- Opcode of JMP. -/
def OP_JMP : Nat := 12

/-- Opcode RES (reserved, unused). -/
def OP_RES : Nat := 13

/-- Opcode of LEA. -/
def OP_LEA : Nat := 14

/-- Opcode of TRAP. -/
def OP_TRAP : Nat := 15

/-- Trap code GETC. -/
def TRAP_GETC : Nat := 0x20

/-- Trap code OUT. -/
def TRAP_OUT : Nat := 0x21

/-- Trap code PUTS. -/
def TRAP_PUTS : Nat := 0x22

/-- Trap code IN. -/
def TRAP_IN : Nat := 0x23

/-- Trap code PUTSP. -/
def TRAP_PUTSP : Nat := 0x24

/-- Trap code HALT. -/
def TRAP_HALT : Nat := 0x25

/-- Positive flag, `1 << 0`. -/
def FL_POS : Nat := 1 <<< 0

/-- Zero flag, `1 << 1`. -/
def FL_ZRO : Nat := 1 <<< 1

/-- Negative flag, `1 << 2`. -/
def FL_NEG : Nat := 1 <<< 2

/-- Keyboard status register address. -/
def MR_KBSR : Nat := 0xFE00

/-- Keyboard data register address. -/
def MR_KBDR : Nat := 0xFE02

/-! ## Machine integers -/

/-- Conversion of a non-negative `int` value to `uint16_t`. -/
def u16 (n : Nat) : Nat := n % 65536

/-- Conversion of a possibly negative `int` value to `uint16_t`. -/
def u16OfInt (z : Int) : Nat := (z % 65536).toNat

/-- Reading of a 16-bit word as a signed two's-complement number. -/
def toSigned16 (w : Nat) : Int := if w < 32768 then (w : Int) else (w : Int) - 65536

/-! ## State -/

/-- The two global arrays of the program.  Cells of `memory` are addressed by
`0 .. 65535`, cells of `reg` by `0 .. 9`. -/
structure Machine where
  memory : Nat → Nat
  reg : Nat → Nat

/-- Array assignment `a[i] = v`. -/
def setCell (a : Nat → Nat) (i v : Nat) : Nat → Nat := fun j => if j = i then v else a j

/-! ## Console

The keyboard is the queue of characters typed and not yet consumed.
`check_key` (which is `_kbhit`) reports whether the queue is non-empty and
`getchar` removes its head. -/

/-- Pending keyboard characters, oldest first. -/
abbrev Console := List Nat

/-- `check_key`: non-zero exactly when a key is pending. -/
def check_key (con : Console) : Nat := if con.isEmpty then 0 else 1

/-- `getchar`: the next character as an `int`, or `EOF = -1` when there is none,
together with the remaining queue. -/
def getchar (con : Console) : Int × Console :=
  match con with
  | [] => (-1, [])
  | c :: rest => ((c : Int), rest)

/-! ## Pure helpers -/

/-- `sign_extend`:
`if ((x >> (bit_count - 1)) & 1) x |= (0xFFFF << bit_count); return x;`.
The shifted mask is an `int`; assigning back to `x` truncates to 16 bits. -/
def sign_extend (x : Nat) (bit_count : Nat) : Nat :=
  if (x >>> (bit_count - 1)) &&& 1 ≠ 0 then
    u16 (x ||| (0xFFFF <<< bit_count))
  else
    x

/-- `swap16`: `return (x << 8) | (x >> 8);`, truncated to `uint16_t` on return. -/
def swap16 (x : Nat) : Nat := u16 ((x <<< 8) ||| (x >>> 8))

/-! ## Condition flags -/

/-- `update_flags`: zero is tested first, then bit 15. -/
def update_flags (s : Machine) (r : Nat) : Machine :=
  if s.reg r = 0 then
    { s with reg := setCell s.reg R_COND FL_ZRO }
  else if s.reg r >>> 15 ≠ 0 then
    { s with reg := setCell s.reg R_COND FL_NEG }
  else
    { s with reg := setCell s.reg R_COND FL_POS }

/-! ## Memory access -/

/-- `mem_write`: `memory[address] = val;`. -/
def mem_write (s : Machine) (address val : Nat) : Machine :=
  { s with memory := setCell s.memory address val }

/-- `mem_read`: returns the value read, the machine afterwards and the console
afterwards.  A read of `MR_KBSR` polls the keyboard first. -/
def mem_read (s : Machine) (con : Console) (address : Nat) : Nat × Machine × Console :=
  if address = MR_KBSR then
    if check_key con ≠ 0 then
      let m1 := setCell s.memory MR_KBSR (1 <<< 15)
      let g := getchar con
      let m2 := setCell m1 MR_KBDR (u16OfInt g.1)
      (m2 address, { s with memory := m2 }, g.2)
    else
      let m1 := setCell s.memory MR_KBSR 0
      (m1 address, { s with memory := m1 }, con)
  else
    (s.memory address, s, con)

/-! ## Image loader -/

/-- `fread(buf + p, sizeof(uint16_t), count, file)` on a little-endian host.
Returns the buffer afterwards, the number of complete items read and the
unread rest of the file.  Bytes are copied in file order, so a complete item
`b0 b1` arrives as `b0 + 256 * b1`; a single trailing byte is an incomplete
item: it is not counted, and only the low byte of its cell is overwritten. -/
def fread (buf : Nat → Nat) (p : Nat) : Nat → List Nat → (Nat → Nat) × Nat × List Nat
  | 0, file => (buf, 0, file)
  | _ + 1, [] => (buf, 0, [])
  | _ + 1, [b0] => (setCell buf p (buf p / 256 * 256 + b0), 0, [])
  | count + 1, b0 :: b1 :: rest =>
    let r := fread (setCell buf p (b0 + 256 * b1)) (p + 1) count rest
    (r.1, r.2.1 + 1, r.2.2)

/-- The loop `while (read-- > 0) { *p = swap16(*p); ++p; }`. -/
def swapLoop (mem : Nat → Nat) (p : Nat) : Nat → (Nat → Nat)
  | 0 => mem
  | read + 1 => swapLoop (setCell mem p (swap16 (mem p))) (p + 1) read

/-- `read_image_file`.  `uninit` is the content of the uninitialised local
`origin` before the first `fread`; it is only observable when the file holds
fewer than two bytes. -/
def read_image_file (uninit : Nat) (file : List Nat) (s : Machine) : Machine :=
  let r1 := fread (fun _ => uninit) 0 1 file
  let origin := swap16 (r1.1 0)
  let max_read := u16 (MEMORY_MAX - origin)
  let p := origin
  let r2 := fread s.memory p max_read r1.2.2
  { s with memory := swapLoop r2.1 p r2.2.1 }

/-- `read_image`.  `fs path` is the content of the file at `path` when `fopen`
succeeds and `none` when it fails.  Returns the C return value and the machine
afterwards. -/
def read_image (fs : String → Option (List Nat)) (uninit : Nat) (image_path : String)
    (s : Machine) : Nat × Machine :=
  match fs image_path with
  | none => (0, s)
  | some file => (1, read_image_file uninit file s)

/-- Big-endian bytes of a sequence of 16-bit words. -/
def wordBytes (words : List Nat) : List Nat :=
  words.flatMap (fun w => [w / 256, w % 256])

/-- Bytes of an image file: big-endian origin followed by big-endian words. -/
def imageBytes (origin : Nat) (words : List Nat) : List Nat :=
  (origin / 256) :: (origin % 256) :: wordBytes words

/-! ## Execution engine

`src/lc3.c` ends with `mem_read`: the instruction executor, the trap dispatcher
and the execution loop have no code.  They are described by sections 4.3 to 4.6
of the specification, from which the definitions of this section are taken.
They run on top of `mem_read`, `mem_write`, `sign_extend` and `update_flags`
as embedded above. -/

/-- Modelled from the spec: the operand fields of an instruction word, which
the missing instruction executor would extract.  Sections 4.3 and 4.4 fix only
the opcode (top 4 bits), the trap vector (low 8 bits) and the width of every
immediate and offset; where the register selectors, the mode bits and the
fields sit is left to "documented bit positions", and the prompt of the IN trap
is not given.  These are therefore parameters.  A register selector names one
of `R0 .. R7`. -/
structure Encoding where
  dest : Nat → Fin 8
  src : Nat → Fin 8
  src1 : Nat → Fin 8
  src2 : Nat → Fin 8
  base : Nat → Fin 8
  immMode : Nat → Bool
  relMode : Nat → Bool
  imm5 : Nat → Nat
  off6 : Nat → Nat
  off9 : Nat → Nat
  off11 : Nat → Nat
  cond : Nat → Nat
  prompt : List Nat

/-- Modelled from the spec: the state the missing execution loop works on
(section 4.6): memory and registers, the console input not yet consumed, the
characters written to the console so far, and whether the loop is Running
(`true`) or Stopped (`false`). -/
structure VM where
  machine : Machine
  console : Console
  output : List Nat
  running : Bool

/-- Assignment `reg[r] = v`. -/
def setReg (s : Machine) (r v : Nat) : Machine :=
  { s with reg := setCell s.reg r v }

/-- Modelled from the spec: the character loop of the missing PUTS routine
(section 4.5): starting at `addr`, one character per memory cell, until a cell
containing `0`.  Addresses wrap at 16 bits.  `none` when no cell among the
`fuel` visited ones is `0`. -/
def putsChars (mem : Nat → Nat) : Nat → Nat → Option (List Nat)
  | _, 0 => none
  | addr, fuel + 1 =>
    if mem addr = 0 then some []
    else (putsChars mem (u16 (addr + 1)) fuel).map (fun cs => mem addr :: cs)

/-- Modelled from the spec: the character loop of the missing PUTSP routine
(section 4.5): two characters per cell, low byte first, then the high byte if
non-zero; the first zero byte ends the string. -/
def putspChars (mem : Nat → Nat) : Nat → Nat → Option (List Nat)
  | _, 0 => none
  | addr, fuel + 1 =>
    if mem addr % 256 = 0 then some []
    else if mem addr / 256 % 256 = 0 then some [mem addr % 256]
    else
      (putspChars mem (u16 (addr + 1)) fuel).map
        (fun cs => mem addr % 256 :: mem addr / 256 % 256 :: cs)

/-- Modelled from the spec: the missing trap dispatcher (section 4.5), entered
after TRAP has saved the PC in `R7`.  `none` means that the routine never
returns: a blocking read on an empty console, or a string without terminator.
A vector other than the six defined ones does nothing. -/
def trap (enc : Encoding) (vect : Nat) (v : VM) : Option VM :=
  if vect = TRAP_GETC then
    if check_key v.console ≠ 0 then
      let g := getchar v.console
      some { v with machine := setReg v.machine R_R0 (u16OfInt g.1), console := g.2 }
    else none
  else if vect = TRAP_OUT then
    some { v with output := v.output ++ [v.machine.reg R_R0 % 256] }
  else if vect = TRAP_PUTS then
    (putsChars v.machine.memory (v.machine.reg R_R0) 65536).map
      (fun cs => { v with output := v.output ++ cs })
  else if vect = TRAP_IN then
    if check_key v.console ≠ 0 then
      let g := getchar v.console
      let out := v.output ++ enc.prompt ++ [u16OfInt g.1]
      some { v with machine := setReg v.machine R_R0 (u16OfInt g.1), console := g.2, output := out }
    else none
  else if vect = TRAP_PUTSP then
    (putspChars v.machine.memory (v.machine.reg R_R0) 65536).map
      (fun cs => { v with output := v.output ++ cs })
  else if vect = TRAP_HALT then
    some { v with running := false }
  else
    some v

/-- Modelled from the spec: the missing instruction executor, one case per
opcode of the table in section 4.4.  All arithmetic wraps modulo `65536`;
PC-relative offsets are added to the already incremented PC; loads go through
`mem_read` and stores through `mem_write`.  RES and RTI follow the recommended
policy of section 7 and stop the machine. -/
def execute (enc : Encoding) (instr : Nat) (v : VM) : Option VM :=
  let s := v.machine
  let pc := s.reg R_PC
  let op := instr >>> 12
  if op = OP_ADD then
    let operand := if enc.immMode instr then sign_extend (enc.imm5 instr) 5
                   else s.reg (enc.src2 instr)
    let s1 := setReg s (enc.dest instr) (u16 (s.reg (enc.src1 instr) + operand))
    some { v with machine := update_flags s1 (enc.dest instr) }
  else if op = OP_AND then
    let operand := if enc.immMode instr then sign_extend (enc.imm5 instr) 5
                   else s.reg (enc.src2 instr)
    let s1 := setReg s (enc.dest instr) (s.reg (enc.src1 instr) &&& operand)
    some { v with machine := update_flags s1 (enc.dest instr) }
  else if op = OP_NOT then
    let s1 := setReg s (enc.dest instr) (0xFFFF - s.reg (enc.src1 instr) % 65536)
    some { v with machine := update_flags s1 (enc.dest instr) }
  else if op = OP_BR then
    if enc.cond instr &&& s.reg R_COND ≠ 0 then
      some { v with machine := setReg s R_PC (u16 (pc + sign_extend (enc.off9 instr) 9)) }
    else some v
  else if op = OP_JMP then
    some { v with machine := setReg s R_PC (s.reg (enc.base instr)) }
  else if op = OP_JSR then
    let s1 := setReg s R_R7 pc
    if enc.relMode instr then
      some { v with machine := setReg s1 R_PC (u16 (pc + sign_extend (enc.off11 instr) 11)) }
    else
      some { v with machine := setReg s1 R_PC (s1.reg (enc.base instr)) }
  else if op = OP_LD then
    let r := mem_read s v.console (u16 (pc + sign_extend (enc.off9 instr) 9))
    let s1 := update_flags (setReg r.2.1 (enc.dest instr) r.1) (enc.dest instr)
    some { v with machine := s1, console := r.2.2 }
  else if op = OP_LDI then
    let r1 := mem_read s v.console (u16 (pc + sign_extend (enc.off9 instr) 9))
    let r := mem_read r1.2.1 r1.2.2 r1.1
    let s1 := update_flags (setReg r.2.1 (enc.dest instr) r.1) (enc.dest instr)
    some { v with machine := s1, console := r.2.2 }
  else if op = OP_LDR then
    let a := u16 (s.reg (enc.base instr) + sign_extend (enc.off6 instr) 6)
    let r := mem_read s v.console a
    let s1 := update_flags (setReg r.2.1 (enc.dest instr) r.1) (enc.dest instr)
    some { v with machine := s1, console := r.2.2 }
  else if op = OP_LEA then
    let s1 := setReg s (enc.dest instr) (u16 (pc + sign_extend (enc.off9 instr) 9))
    some { v with machine := update_flags s1 (enc.dest instr) }
  else if op = OP_ST then
    let a := u16 (pc + sign_extend (enc.off9 instr) 9)
    some { v with machine := mem_write s a (s.reg (enc.src instr)) }
  else if op = OP_STI then
    let r := mem_read s v.console (u16 (pc + sign_extend (enc.off9 instr) 9))
    let s1 := mem_write r.2.1 r.1 (r.2.1.reg (enc.src instr))
    some { v with machine := s1, console := r.2.2 }
  else if op = OP_STR then
    let a := u16 (s.reg (enc.base instr) + sign_extend (enc.off6 instr) 6)
    some { v with machine := mem_write s a (s.reg (enc.src instr)) }
  else if op = OP_TRAP then
    trap enc (instr &&& 0xFF) { v with machine := setReg s R_R7 pc }
  else
    some { v with running := false }

/-- Modelled from the spec: one step of the missing execution loop in state
Running (section 4.6): fetch the word at `memory[PC]`, add one to the PC,
decode the opcode and execute. -/
def step (enc : Encoding) (v : VM) : Option VM :=
  let r := mem_read v.machine v.console (v.machine.reg R_PC)
  let s1 := setReg r.2.1 R_PC (u16 (r.2.1.reg R_PC + 1))
  execute enc r.1 { v with machine := s1, console := r.2.2 }

/-- Modelled from the spec: the missing execution loop (section 4.6), for at
most `fuel` steps.  A Stopped machine takes no further step. -/
def run (enc : Encoding) : Nat → VM → Option VM
  | 0, v => some v
  | fuel + 1, v => if v.running then (step enc v).bind (run enc fuel) else some v

/-- Modelled from the spec: the initial state of the missing execution loop
(section 4.6): Running, PC at the start address supplied by the caller,
`COND = ZRO`, nothing written to the console yet. -/
def start (s : Machine) (con : Console) (pc : Nat) : VM :=
  VM.mk (setReg (setReg s R_PC pc) R_COND FL_ZRO) con [] true

/-! ## Sample inputs -/

/-- A machine whose memory cells all hold `9` and whose registers hold `7`,
except `R5`, which holds the negative word `0x8001`. -/
def sampleMachine : Machine :=
  Machine.mk (fun _ => 9) (fun i => if i = 5 then 0x8001 else 7)

/-- A file system with three files that open: an image of two words at origin
`0xFFFF`, an empty file, and a file of a single byte.  Every other path fails
to open. -/
def sampleFs (path : String) : Option (List Nat) :=
  if path = "overrun.obj" then some (imageBytes 0xFFFF [0x1234, 0x5678])
  else if path = "empty.obj" then some []
  else if path = "short.obj" then some [0x30]
  else none

/-- Modelled from the spec: one admissible `Encoding`, the customary LC-3
layout: destination or stored register in bits 11..9, first source or base
register in bits 8..6, second source register in bits 2..0, immediate mode in
bit 5, relative JSR mode in bit 11, immediates and offsets in the low bits, the
N/Z/P bits of BR in bits 11..9. -/
def lc3Encoding : Encoding where
  dest := fun i => ⟨(i >>> 9) % 8, Nat.mod_lt _ (by decide)⟩
  src := fun i => ⟨(i >>> 9) % 8, Nat.mod_lt _ (by decide)⟩
  src1 := fun i => ⟨(i >>> 6) % 8, Nat.mod_lt _ (by decide)⟩
  src2 := fun i => ⟨i % 8, Nat.mod_lt _ (by decide)⟩
  base := fun i => ⟨(i >>> 6) % 8, Nat.mod_lt _ (by decide)⟩
  immMode := fun i => (i >>> 5) % 2 = 1
  relMode := fun i => (i >>> 11) % 2 = 1
  imm5 := fun i => i &&& 0x1F
  off6 := fun i => i &&& 0x3F
  off9 := fun i => i &&& 0x1FF
  off11 := fun i => i &&& 0x7FF
  cond := fun i => (i >>> 9) &&& 0x7
  prompt := [0x3E, 0x20]

/-- The machine `s` after loading the image with origin `0x3000` and the two
words `0x1025`, `0xF025`, started at `PC = 0x3000` with console input `con`. -/
def addHaltVM (uninit : Nat) (s : Machine) (con : Console) : VM :=
  start (read_image_file uninit (imageBytes 0x3000 [0x1025, 0xF025]) s) con 0x3000

/-! ## Arithmetic of the bit operations -/

theorem swap16_eq (x : Nat) (hx : x < 65536) : swap16 x = (x % 256) * 256 + x / 256 := by
  have hlt : x / 2 ^ 8 < 2 ^ 8 := by omega
  have hor : x <<< 8 ||| x >>> 8 = 2 ^ 8 * x + x / 2 ^ 8 := by
    rw [Nat.shiftLeft_eq, Nat.shiftRight_eq_div_pow, Nat.mul_comm x, Nat.mul_add_lt_is_or hlt]
  unfold swap16 u16
  rw [hor]
  omega

theorem two_pow_le_of_lt16 (k : Nat) (hk : k < 16) : 2 ^ k ≤ 32768 := by
  have h : 2 ^ k ≤ 2 ^ 15 := Nat.pow_le_pow_right (by decide) (by omega)
  simpa using h

theorem two_pow_pred_double (k : Nat) (hk : 1 ≤ k) : 2 ^ k = 2 * 2 ^ (k - 1) := by
  obtain ⟨j, rfl⟩ : ∃ j, k = j + 1 := ⟨k - 1, by omega⟩
  simp [pow_succ, Nat.mul_comm]

theorem sign_bit_test (f k : Nat) (hk : 1 ≤ k) (hf : f < 2 ^ k) :
    ((f >>> (k - 1)) &&& 1 ≠ 0) ↔ 2 ^ (k - 1) ≤ f := by
  have hd := two_pow_pred_double k hk
  have hpos : 0 < 2 ^ (k - 1) := Nat.two_pow_pos _
  rw [Nat.shiftRight_eq_div_pow, Nat.and_one_is_mod]
  have hq : f / 2 ^ (k - 1) < 2 := by
    rw [Nat.div_lt_iff_lt_mul hpos]; omega
  constructor
  · intro h
    by_contra hlt
    have : f / 2 ^ (k - 1) = 0 := Nat.div_eq_of_lt (by omega)
    omega
  · intro h
    have : 1 ≤ f / 2 ^ (k - 1) := (Nat.le_div_iff_mul_le hpos).2 (by omega)
    omega

theorem or_mask_eq (f k : Nat) (hk : k < 16) (hf : f < 2 ^ k) :
    u16 (f ||| (0xFFFF <<< k)) = f + 65536 - 2 ^ k := by
  have hle := two_pow_le_of_lt16 k hk
  have hpos : 0 < 2 ^ k := Nat.two_pow_pos _
  have hor : f ||| (0xFFFF <<< k) = 2 ^ k * 65535 + f := by
    rw [Nat.shiftLeft_eq, Nat.mul_comm 65535, Nat.lor_comm, Nat.mul_add_lt_is_or hf]
  unfold u16
  rw [hor]
  omega

/-! ## Sign extension -/

theorem sign_extend_of_high (f k : Nat) (hk1 : 1 ≤ k) (hk : k < 16) (hf : f < 2 ^ k)
    (hs : 2 ^ (k - 1) ≤ f) : sign_extend f k = f + 65536 - 2 ^ k := by
  unfold sign_extend
  rw [if_pos ((sign_bit_test f k hk1 hf).2 hs)]
  exact or_mask_eq f k hk hf

theorem sign_extend_of_low (f k : Nat) (hk1 : 1 ≤ k) (hf : f < 2 ^ k)
    (hs : f < 2 ^ (k - 1)) : sign_extend f k = f := by
  unfold sign_extend
  rw [if_neg]
  intro h
  have := (sign_bit_test f k hk1 hf).1 h
  omega

/-- C1: for a width `k` with `1 ≤ k < 16` and a 16-bit value `v`, the field
`f = v mod 2 ^ k` sign-extended and read as a signed 16-bit number equals `f`
read as a `k`-bit two's-complement number; and `sign_extend(0b11111, 5)` is
`0xFFFF`. -/
theorem sign_extend_signed_value (k v : Nat) (hk1 : 1 ≤ k) (hk : k < 16) (_hv : v < 65536) :
    toSigned16 (sign_extend (v % 2 ^ k) k)
        = (if v % 2 ^ k < 2 ^ (k - 1) then ((v % 2 ^ k : Nat) : Int)
           else ((v % 2 ^ k : Nat) : Int) - ((2 ^ k : Nat) : Int))
      ∧ sign_extend 0b11111 5 = 0xFFFF := by
  refine ⟨?_, by decide⟩
  have hf : v % 2 ^ k < 2 ^ k := Nat.mod_lt _ (Nat.two_pow_pos _)
  have hle := two_pow_le_of_lt16 k hk
  have hd := two_pow_pred_double k hk1
  generalize v % 2 ^ k = f at hf ⊢
  by_cases hs : f < 2 ^ (k - 1)
  · rw [sign_extend_of_low f k hk1 hf hs, if_pos hs]
    unfold toSigned16
    rw [if_pos (by omega)]
  · rw [sign_extend_of_high f k hk1 hk hf (by omega), if_neg hs]
    unfold toSigned16
    rw [if_neg (by omega)]
    generalize 2 ^ k = P at *
    omega

theorem sign_extend_signed_value_witness :
    (1 ≤ 9 ∧ 9 < 16 ∧ 0xABCD < 65536) ∧
    toSigned16 (sign_extend (0xABCD % 2 ^ 9) 9)
        = (if 0xABCD % 2 ^ 9 < 2 ^ (9 - 1) then ((0xABCD % 2 ^ 9 : Nat) : Int)
           else ((0xABCD % 2 ^ 9 : Nat) : Int) - ((2 ^ 9 : Nat) : Int))
      ∧ sign_extend 0b11111 5 = 0xFFFF :=
  ⟨by decide, sign_extend_signed_value 9 0xABCD (by decide) (by decide) (by decide)⟩

/-! ## Cell assignment -/

theorem setCell_same (a : Nat → Nat) (i v : Nat) : setCell a i v i = v := by
  simp [setCell]

theorem setCell_other (a : Nat → Nat) (i v j : Nat) (h : j ≠ i) : setCell a i v j = a j := by
  simp [setCell, h]

/-! ## Byte swap -/

/-- C10: `swap16` turns the little-endian reading `b0 + 256 * b1` of two file
bytes into the big-endian word `256 * b0 + b1`; for every 16-bit `x` it returns
`(x mod 256) * 256 + x div 256`, a 16-bit value. -/
theorem swap16_big_endian (b0 b1 x : Nat) (h0 : b0 < 256) (h1 : b1 < 256) (hx : x < 65536) :
    swap16 (b0 + 256 * b1) = 256 * b0 + b1
      ∧ swap16 x = (x % 256) * 256 + x / 256
      ∧ swap16 x < 65536 := by
  refine ⟨?_, swap16_eq x hx, ?_⟩
  · rw [swap16_eq _ (by omega)]
    omega
  · rw [swap16_eq x hx]
    omega

theorem swap16_big_endian_witness :
    (0x30 < 256 ∧ 0x25 < 256 ∧ 0xF025 < 65536) ∧
    (swap16 (0x30 + 256 * 0x25) = 256 * 0x30 + 0x25
      ∧ swap16 0xF025 = (0xF025 % 256) * 256 + 0xF025 / 256
      ∧ swap16 0xF025 < 65536) :=
  ⟨by decide, swap16_big_endian 0x30 0x25 0xF025 (by decide) (by decide) (by decide)⟩

/-! ## Condition flags -/

theorem shiftRight15_ne_zero (w : Nat) : w >>> 15 ≠ 0 ↔ 32768 ≤ w := by
  rw [Nat.shiftRight_eq_div_pow]
  omega

theorem testBit15_iff (w : Nat) (hw : w < 65536) : w.testBit 15 = true ↔ 32768 ≤ w := by
  rw [Nat.testBit_to_div_mod, decide_eq_true_iff]
  omega

theorem update_flags_cases (s : Machine) (r : Nat) :
    (update_flags s r).reg R_COND
      = if s.reg r = 0 then FL_ZRO else if 32768 ≤ s.reg r then FL_NEG else FL_POS := by
  unfold update_flags
  by_cases hz : s.reg r = 0
  · simp [hz, setCell_same]
  · by_cases hn : 32768 ≤ s.reg r
    · rw [if_neg hz, if_neg hz, if_pos ((shiftRight15_ne_zero _).2 hn), if_pos hn]
      exact setCell_same s.reg R_COND _
    · rw [if_neg hz, if_neg hz, if_neg (fun h => hn ((shiftRight15_ne_zero _).1 h)), if_neg hn]
      exact setCell_same s.reg R_COND _

/-- C2: for a general-purpose register `r` (index `0 .. 7`) holding a 16-bit
value, after `update_flags(r)` the register `COND` is `FL_NEG = 4` if bit 15 of
`reg[r]` is set, otherwise `FL_ZRO = 2` if `reg[r]` is `0`, otherwise
`FL_POS = 1`. -/
theorem update_flags_cond (s : Machine) (r : Nat) (_hr : r < 8) (hw : s.reg r < 65536) :
    (update_flags s r).reg R_COND
        = (if (s.reg r).testBit 15 = true then FL_NEG
           else if s.reg r = 0 then FL_ZRO else FL_POS)
      ∧ FL_NEG = 4 ∧ FL_ZRO = 2 ∧ FL_POS = 1 := by
  refine ⟨?_, by decide, by decide, by decide⟩
  rw [update_flags_cases]
  by_cases hn : 32768 ≤ s.reg r
  · rw [if_neg (by omega), if_pos hn, if_pos ((testBit15_iff _ hw).2 hn)]
  · rw [if_neg (fun h => hn ((testBit15_iff _ hw).1 h)), if_neg hn]

/-- C7, first half: whatever `COND` held before, after `update_flags(r)` with
a valid register index `r` (`0 .. 9`) it holds exactly one of `1`, `2`, `4`.
Second half: `mem_write`, `mem_read`, `read_image_file` and `read_image` leave
`COND` as it was. -/
theorem cond_one_flag (s : Machine) (r : Nat) (_hr : r < R_COUNT) :
    ((update_flags s r).reg R_COND = 1 ∨ (update_flags s r).reg R_COND = 2
        ∨ (update_flags s r).reg R_COND = 4)
      ∧ (∀ a x, (mem_write s a x).reg R_COND = s.reg R_COND)
      ∧ (∀ con a, (mem_read s con a).2.1.reg R_COND = s.reg R_COND)
      ∧ (∀ uninit file, (read_image_file uninit file s).reg R_COND = s.reg R_COND)
      ∧ (∀ fs uninit path, (read_image fs uninit path s).2.reg R_COND = s.reg R_COND) := by
  refine ⟨?_, fun _ _ => rfl, ?_, fun _ _ => rfl, ?_⟩
  · rw [update_flags_cases]
    by_cases hz : s.reg r = 0
    · right; left; rw [if_pos hz]; rfl
    · by_cases hn : 32768 ≤ s.reg r
      · right; right; rw [if_neg hz, if_pos hn]; rfl
      · left; rw [if_neg hz, if_neg hn]; rfl
  · intro con a
    unfold mem_read
    split
    · split <;> rfl
    · rfl
  · intro fs uninit path
    unfold read_image
    split <;> rfl

theorem update_flags_cond_witness :
    (5 < 8 ∧ sampleMachine.reg 5 < 65536) ∧
    ((update_flags sampleMachine 5).reg R_COND
        = (if (sampleMachine.reg 5).testBit 15
              = true then FL_NEG
           else if sampleMachine.reg 5 = 0
             then FL_ZRO else FL_POS)
      ∧ FL_NEG = 4 ∧ FL_ZRO = 2 ∧ FL_POS = 1) :=
  ⟨by decide, update_flags_cond sampleMachine 5
    (by decide) (by decide)⟩

theorem cond_one_flag_witness :
    9 < R_COUNT ∧
    (((update_flags sampleMachine 9).reg R_COND = 1
        ∨ (update_flags sampleMachine 9).reg R_COND = 2
        ∨ (update_flags sampleMachine 9).reg R_COND = 4)
      ∧ (∀ a x, (mem_write sampleMachine a x).reg R_COND = sampleMachine.reg R_COND)
      ∧ (∀ con a, (mem_read sampleMachine con a).2.1.reg R_COND = sampleMachine.reg R_COND)
      ∧ (∀ uninit file,
          (read_image_file uninit file sampleMachine).reg R_COND = sampleMachine.reg R_COND)
      ∧ (∀ fs uninit path,
          (read_image fs uninit path sampleMachine).2.reg R_COND = sampleMachine.reg R_COND)) :=
  ⟨by decide, cond_one_flag sampleMachine 9 (by decide)⟩

/-! ## Memory access -/

/-- C8: for a 16-bit address `a` (the device addresses included) and a 16-bit
value `x`, after `mem_write(a, x)` the cell `memory[a]` holds `x`, every other
cell holds what it held before, and the registers are unchanged. -/
theorem mem_write_frame (s : Machine) (a x : Nat) (_ha : a < 65536) (_hx : x < 65536) :
    (mem_write s a x).memory a = x
      ∧ (∀ b, b ≠ a → (mem_write s a x).memory b = s.memory b)
      ∧ (mem_write s a x).reg = s.reg := by
  refine ⟨setCell_same _ _ _, fun b hb => setCell_other _ _ _ _ hb, rfl⟩

theorem mem_write_frame_witness :
    (0xFE00 < 65536 ∧ 0x1234 < 65536) ∧
    ((mem_write sampleMachine 0xFE00 0x1234).memory 0xFE00 = 0x1234
      ∧ (∀ b, b ≠ 0xFE00 →
          (mem_write sampleMachine 0xFE00 0x1234).memory b
            = sampleMachine.memory b)
      ∧ (mem_write sampleMachine 0xFE00 0x1234).reg
          = sampleMachine.reg) :=
  ⟨by decide, mem_write_frame sampleMachine 0xFE00 0x1234
    (by decide) (by decide)⟩

theorem mem_read_plain (s : Machine) (con : Console) (a : Nat) (h : a ≠ MR_KBSR) :
    mem_read s con a = (s.memory a, s, con) := by
  unfold mem_read
  rw [if_neg h]

/-- C3: for a 16-bit address `a` other than `0xFE00` and `0xFE02`, a 16-bit
value `x`, any machine and any console (key pending or not), `mem_write(a, x)`
followed by `mem_read(a)` returns `x`. -/
theorem mem_write_read_roundtrip (s : Machine) (con : Console) (a x : Nat)
    (_ha : a < 65536) (_hx : x < 65536) (hs : a ≠ 0xFE00) (_hd : a ≠ 0xFE02) :
    (mem_read (mem_write s a x) con a).1 = x := by
  rw [mem_read_plain _ _ _ hs]
  exact setCell_same _ _ _

theorem mem_write_read_roundtrip_witness :
    (0x3000 < 65536 ∧ 0xBEEF < 65536 ∧ 0x3000 ≠ 0xFE00 ∧ 0x3000 ≠ 0xFE02) ∧
    (mem_read (mem_write sampleMachine 0x3000 0xBEEF) [65] 0x3000).1
      = 0xBEEF :=
  ⟨by decide, mem_write_read_roundtrip sampleMachine [65] 0x3000 0xBEEF
    (by decide) (by decide) (by decide) (by decide)⟩

theorem u16OfInt_natCast (c : Nat) (hc : c < 65536) : u16OfInt (c : Int) = c := by
  unfold u16OfInt
  omega

/-- C4: whatever is stored at `0xFE00` and `0xFE02`, `mem_read(0xFE00)` with
no key pending returns `0` and leaves `memory[0xFE00] = 0`; with a pending key
whose character is the byte `c` it returns `0x8000`, leaves
`memory[0xFE00] = 0x8000` and leaves `memory[0xFE02] = c`. -/
theorem mem_read_kbsr (s : Machine) (c : Nat) (rest : Console) (hc : c < 256) :
    ((mem_read s [] 0xFE00).1 = 0 ∧ (mem_read s [] 0xFE00).2.1.memory 0xFE00 = 0)
      ∧ ((mem_read s (c :: rest) 0xFE00).1 = 0x8000
          ∧ (mem_read s (c :: rest) 0xFE00).2.1.memory 0xFE00 = 0x8000
          ∧ (mem_read s (c :: rest) 0xFE00).2.1.memory 0xFE02 = c) := by
  have hu : u16OfInt (c : Int) = c := u16OfInt_natCast c (by omega)
  simp [mem_read, MR_KBSR, MR_KBDR, check_key, getchar, setCell, hu]

theorem mem_read_kbsr_witness :
    0x41 < 256 ∧
    (((mem_read sampleMachine [] 0xFE00).1 = 0
        ∧ (mem_read sampleMachine [] 0xFE00).2.1.memory 0xFE00 = 0)
      ∧ ((mem_read sampleMachine (0x41 :: [0x42]) 0xFE00).1 = 0x8000
          ∧ (mem_read sampleMachine (0x41 :: [0x42]) 0xFE00).2.1.memory
              0xFE00 = 0x8000
          ∧ (mem_read sampleMachine (0x41 :: [0x42]) 0xFE00).2.1.memory
              0xFE02 = 0x41)) :=
  ⟨by decide, mem_read_kbsr sampleMachine 0x41 [0x42] (by decide)⟩

/-! ## Image loader -/

theorem wordBytes_nil : wordBytes [] = [] := rfl

theorem wordBytes_cons (w : Nat) (ws : List Nat) :
    wordBytes (w :: ws) = (w / 256) :: (w % 256) :: wordBytes ws := by
  simp [wordBytes]

theorem fread_nil (buf : Nat → Nat) (p count : Nat) : fread buf p count [] = (buf, 0, []) := by
  cases count <;> rfl

theorem fread_zero (buf : Nat → Nat) (p : Nat) (file : List Nat) :
    fread buf p 0 file = (buf, 0, file) := by
  simp [fread]

theorem swap16_hostWord (w : Nat) (hw : w < 65536) : swap16 (w / 256 + 256 * (w % 256)) = w := by
  rw [swap16_eq _ (by omega)]
  omega

theorem fread_count (ws : List Nat) (buf : Nat → Nat) (p count : Nat) :
    (fread buf p count (wordBytes ws)).2.1 = min count ws.length := by
  induction ws generalizing buf p count with
  | nil => simp [wordBytes_nil, fread_nil]
  | cons w ws ih =>
    cases count with
    | zero => simp [fread]
    | succ c =>
      rw [wordBytes_cons]
      simp only [fread, ih, List.length_cons]
      omega

theorem fread_memory (ws : List Nat) (buf : Nat → Nat) (p count j : Nat) :
    (fread buf p count (wordBytes ws)).1 j
      = if p ≤ j ∧ j < p + min count ws.length then
          ws.getD (j - p) 0 / 256 + 256 * (ws.getD (j - p) 0 % 256)
        else buf j := by
  induction ws generalizing buf p count with
  | nil =>
    rw [wordBytes_nil, fread_nil, if_neg (by simp)]
  | cons w ws ih =>
    cases count with
    | zero =>
      rw [if_neg (by simp)]
      simp [fread]
    | succ c =>
      rw [wordBytes_cons]
      simp only [fread, ih, List.length_cons]
      by_cases hj : j = p
      · subst hj
        have h1 : ¬ (j + 1 ≤ j ∧ j < j + 1 + min c ws.length) := by omega
        have h2 : j ≤ j ∧ j < j + min (c + 1) (ws.length + 1) := by omega
        rw [if_neg h1, if_pos h2, setCell_same]
        simp
      · by_cases hin : p + 1 ≤ j ∧ j < p + 1 + min c ws.length
        · have h2 : p ≤ j ∧ j < p + min (c + 1) (ws.length + 1) := by omega
          have h3 : j - p = (j - (p + 1)) + 1 := by omega
          rw [if_pos hin, if_pos h2, h3, List.getD_cons_succ]
        · have h2 : ¬ (p ≤ j ∧ j < p + min (c + 1) (ws.length + 1)) := by omega
          rw [if_neg hin, if_neg h2, setCell_other _ _ _ _ hj]

theorem swapLoop_memory (n : Nat) (mem : Nat → Nat) (p j : Nat) :
    swapLoop mem p n j = if p ≤ j ∧ j < p + n then swap16 (mem j) else mem j := by
  induction n generalizing mem p with
  | zero =>
    rw [if_neg (by omega)]
    rfl
  | succ n ih =>
    simp only [swapLoop, ih]
    by_cases hj : j = p
    · subst hj
      have h1 : ¬ (j + 1 ≤ j ∧ j < j + 1 + n) := by omega
      have h2 : j ≤ j ∧ j < j + (n + 1) := by omega
      rw [if_neg h1, if_pos h2, setCell_same]
    · by_cases hin : p + 1 ≤ j ∧ j < p + 1 + n
      · have h2 : p ≤ j ∧ j < p + (n + 1) := by omega
        rw [if_pos hin, if_pos h2, setCell_other _ _ _ _ hj]
      · have h2 : ¬ (p ≤ j ∧ j < p + (n + 1)) := by omega
        rw [if_neg hin, if_neg h2, setCell_other _ _ _ _ hj]

theorem read_image_file_imageBytes (uninit origin : Nat) (ws : List Nat) (s : Machine)
    (ho : origin < 65536) :
    read_image_file uninit (imageBytes origin ws) s
      = Machine.mk
          (swapLoop (fread s.memory origin (u16 (MEMORY_MAX - origin)) (wordBytes ws)).1 origin
            (fread s.memory origin (u16 (MEMORY_MAX - origin)) (wordBytes ws)).2.1)
          s.reg := by
  have hsw : swap16 (origin / 256 + 256 * (origin % 256)) = origin := swap16_hostWord origin ho
  simp only [read_image_file, imageBytes, fread, setCell_same, hsw]

/-- Memory after loading a well-formed image: the cells from `origin` up to the
number of words actually read hold the words, every other cell is untouched. -/
theorem read_image_file_memory (uninit origin : Nat) (ws : List Nat) (s : Machine)
    (ho : origin < 65536) (hws : ∀ w ∈ ws, w < 65536) (j : Nat) :
    (read_image_file uninit (imageBytes origin ws) s).memory j
      = if origin ≤ j ∧ j < origin + min (u16 (MEMORY_MAX - origin)) ws.length then
          ws.getD (j - origin) 0
        else s.memory j := by
  rw [read_image_file_imageBytes uninit origin ws s ho]
  simp only [swapLoop_memory, fread_count, fread_memory]
  by_cases hin : origin ≤ j ∧ j < origin + min (u16 (MEMORY_MAX - origin)) ws.length
  · simp only [if_pos hin]
    apply swap16_hostWord
    have hlt : j - origin < ws.length := by omega
    rw [List.getD_eq_getElem _ _ hlt]
    exact hws _ (List.getElem_mem _)
  · simp only [if_neg hin]

theorem max_read_eq (origin : Nat) (ho1 : 1 ≤ origin) (ho : origin < 65536) :
    u16 (MEMORY_MAX - origin) = 65536 - origin := by
  have h : MEMORY_MAX = 65536 := by decide
  rw [h]
  unfold u16
  omega

theorem read_image_opened (fs : String → Option (List Nat)) (uninit : Nat) (path : String)
    (s : Machine) (file : List Nat) (h : fs path = some file) :
    read_image fs uninit path s = (1, read_image_file uninit file s) := by
  unfold read_image
  rw [h]

theorem read_image_not_opened (fs : String → Option (List Nat)) (uninit : Nat) (path : String)
    (s : Machine) (h : fs path = none) : read_image fs uninit path s = (0, s) := by
  unfold read_image
  rw [h]

theorem read_image_file_short (uninit : Nat) (file : List Nat) (s : Machine)
    (h : file.length < 2) : read_image_file uninit file s = s := by
  match file, h with
  | [], _ => simp [read_image_file, fread, fread_nil, swapLoop]
  | [b], _ => simp [read_image_file, fread, fread_nil, swapLoop]

/-- Loading an image that fits: with origin at least `1` and
`origin + N ≤ 65536`, cell `origin + i` holds the `i`-th word afterwards. -/
theorem read_image_file_loads (uninit origin : Nat) (ws : List Nat) (s : Machine)
    (ho1 : 1 ≤ origin) (ho : origin < 65536) (hws : ∀ w ∈ ws, w < 65536)
    (hfit : origin + ws.length ≤ 65536) (i : Nat) (hi : i < ws.length) :
    (read_image_file uninit (imageBytes origin ws) s).memory (origin + i) = ws[i] := by
  have hmax := max_read_eq origin ho1 ho
  have hin : origin ≤ origin + i
      ∧ origin + i < origin + min (u16 (MEMORY_MAX - origin)) ws.length := by
    rw [hmax]; omega
  rw [read_image_file_memory uninit origin ws s ho hws, if_pos hin, Nat.add_sub_cancel_left,
    List.getD_eq_getElem _ _ hi]

/-- C5 (the code at the failing input): an image with origin `0` loads nothing.
`MEMORY_MAX - origin` is `65536`, which the `uint16_t max_read` truncates to
`0`, so the second `fread` reads no word and the machine is returned as it
was: after loading the bytes `00 00 12 34` into the sample machine,
`memory[0]` is still `9`, not `0x1234`. -/
theorem read_image_file_origin_zero :
    (∀ (uninit : Nat) (ws : List Nat) (s : Machine),
        read_image_file uninit (imageBytes 0 ws) s = s)
      ∧ imageBytes 0 [0x1234] = [0x00, 0x00, 0x12, 0x34]
      ∧ (read_image_file 0 [0x00, 0x00, 0x12, 0x34] sampleMachine).memory 0 = 9 := by
  refine ⟨fun uninit ws s => ?_, by decide, by decide⟩
  have hmax : u16 (MEMORY_MAX - 0) = 0 := by decide
  rw [read_image_file_imageBytes uninit 0 ws s (by decide), hmax, fread_zero]
  rfl

/-- C6 (counterexample): the image with origin `0xFFFF` and the two words
`0x1234`, `0x5678` runs past the end of the address space, yet `read_image`
returns `1` and `memory[0xFFFF]` changes from `9` to `0x1234`. -/
theorem loader_overrun_counterexample :
    0xFFFF + [0x1234, 0x5678].length > 65536
      ∧ sampleFs "overrun.obj" = some (imageBytes 0xFFFF [0x1234, 0x5678])
      ∧ (read_image sampleFs 0 "overrun.obj" sampleMachine).1 = 1
      ∧ (read_image sampleFs 0 "overrun.obj" sampleMachine).2.memory 0xFFFF = 0x1234
      ∧ sampleMachine.memory 0xFFFF = 9 := by
  decide

/-- C6 (amended): an image with origin at least `1` whose origin plus word
count exceeds `65536` is not rejected.  `read_image` returns `1`; the first
`65536 - origin` words are stored at `origin .. 0xFFFF`; no cell below
`origin`, no cell beyond `0xFFFF` and no register is changed. -/
theorem read_image_file_truncates (uninit origin : Nat) (ws : List Nat) (s : Machine)
    (ho1 : 1 ≤ origin) (ho : origin < 65536) (hws : ∀ w ∈ ws, w < 65536)
    (hover : 65536 < origin + ws.length) :
    (∀ i, i < 65536 - origin →
        ws[i]? = some ((read_image_file uninit (imageBytes origin ws) s).memory (origin + i)))
      ∧ (∀ j, j < origin →
          (read_image_file uninit (imageBytes origin ws) s).memory j = s.memory j)
      ∧ (∀ j, 65536 ≤ j →
          (read_image_file uninit (imageBytes origin ws) s).memory j = s.memory j)
      ∧ (read_image_file uninit (imageBytes origin ws) s).reg = s.reg
      ∧ (∀ (fs : String → Option (List Nat)) (path : String),
          fs path = some (imageBytes origin ws) →
            read_image fs uninit path s
              = (1, read_image_file uninit (imageBytes origin ws) s)) := by
  have hmax := max_read_eq origin ho1 ho
  refine ⟨?_, ?_, ?_, rfl, fun fs path h => read_image_opened fs uninit path s _ h⟩
  · intro i hi
    have hin : origin ≤ origin + i
        ∧ origin + i < origin + min (u16 (MEMORY_MAX - origin)) ws.length := by
      rw [hmax]; omega
    have hlt : i < ws.length := by omega
    rw [read_image_file_memory uninit origin ws s ho hws, if_pos hin, Nat.add_sub_cancel_left,
      List.getD_eq_getElem _ _ hlt, List.getElem?_eq_getElem hlt]
  · intro j hj
    rw [read_image_file_memory uninit origin ws s ho hws, if_neg (by omega)]
  · intro j hj
    rw [read_image_file_memory uninit origin ws s ho hws, if_neg (by rw [hmax]; omega)]

theorem read_image_file_truncates_witness :
    (1 ≤ 0xFFFF ∧ 0xFFFF < 65536 ∧ (∀ w ∈ [0x1234, 0x5678], w < 65536)
        ∧ 65536 < 0xFFFF + [0x1234, 0x5678].length) ∧
    ((∀ i, i < 65536 - 0xFFFF →
        [0x1234, 0x5678][i]?
          = some ((read_image_file 0 (imageBytes 0xFFFF [0x1234, 0x5678]) sampleMachine).memory
              (0xFFFF + i)))
      ∧ (∀ j, j < 0xFFFF →
          (read_image_file 0 (imageBytes 0xFFFF [0x1234, 0x5678]) sampleMachine).memory j
            = sampleMachine.memory j)
      ∧ (∀ j, 65536 ≤ j →
          (read_image_file 0 (imageBytes 0xFFFF [0x1234, 0x5678]) sampleMachine).memory j
            = sampleMachine.memory j)
      ∧ (read_image_file 0 (imageBytes 0xFFFF [0x1234, 0x5678]) sampleMachine).reg
          = sampleMachine.reg
      ∧ (∀ (fs : String → Option (List Nat)) (path : String),
          fs path = some (imageBytes 0xFFFF [0x1234, 0x5678]) →
            read_image fs 0 path sampleMachine
              = (1, read_image_file 0 (imageBytes 0xFFFF [0x1234, 0x5678]) sampleMachine))) :=
  ⟨by decide, read_image_file_truncates 0 0xFFFF [0x1234, 0x5678] sampleMachine
    (by decide) (by decide) (by decide) (by decide)⟩

/-- C9 (counterexample): the file `empty.obj` opens but is too short to hold
the origin word; `read_image` nevertheless returns `1`, although no cell of
memory was loaded. -/
theorem read_image_short_file_counterexample :
    sampleFs "empty.obj" = some []
      ∧ (read_image sampleFs 0 "empty.obj" sampleMachine).1 = 1
      ∧ (read_image sampleFs 0 "empty.obj" sampleMachine).2.memory 0 = sampleMachine.memory 0 := by
  decide

/-- C9 (amended): `read_image` returns `0` exactly when the file cannot be
opened, and then memory and registers are unchanged; whenever the file opens
it returns `1` and the registers are unchanged, also when the file is too
short to hold the origin word, in which case memory is unchanged as well. -/
theorem read_image_reports_open_failure (fs : String → Option (List Nat)) (uninit : Nat)
    (path : String) (s : Machine) :
    ((read_image fs uninit path s).1 = 0 ↔ fs path = none)
      ∧ (fs path = none → read_image fs uninit path s = (0, s))
      ∧ (∀ file, fs path = some file →
          (read_image fs uninit path s).1 = 1
            ∧ (read_image fs uninit path s).2.reg = s.reg
            ∧ (file.length < 2 → (read_image fs uninit path s).2 = s)) := by
  refine ⟨?_, read_image_not_opened fs uninit path s, ?_⟩
  · cases h : fs path with
    | none => simp [read_image_not_opened fs uninit path s h]
    | some file => simp [read_image_opened fs uninit path s file h]
  · intro file h
    rw [read_image_opened fs uninit path s file h]
    exact ⟨rfl, rfl, fun hlen => read_image_file_short uninit file s hlen⟩

theorem read_image_reports_open_failure_witness :
    (sampleFs "missing.obj" = none ∧ read_image sampleFs 0 "missing.obj" sampleMachine
        = (0, sampleMachine))
      ∧ (sampleFs "short.obj" = some [0x30] ∧ [0x30].length < 2
          ∧ (read_image sampleFs 0 "short.obj" sampleMachine).1 = 1
          ∧ (read_image sampleFs 0 "short.obj" sampleMachine).2 = sampleMachine) :=
  ⟨⟨by decide,
      (read_image_reports_open_failure sampleFs 0 "missing.obj" sampleMachine).2.1 (by decide)⟩,
    by decide, by decide,
    ((read_image_reports_open_failure sampleFs 0 "short.obj" sampleMachine).2.2 [0x30]
      (by decide)).1,
    ((read_image_reports_open_failure sampleFs 0 "short.obj" sampleMachine).2.2 [0x30]
      (by decide)).2.2 (by decide)⟩

/-! ## Bits of the sign-extended word -/

theorem sign_test_iff_testBit (x k : Nat) :
    ((x >>> (k - 1)) &&& 1 ≠ 0) ↔ x.testBit (k - 1) = true := by
  rw [Nat.and_one_is_mod, Nat.testBit_to_div_mod, Nat.shiftRight_eq_div_pow, decide_eq_true_iff]
  omega

theorem testBit_mask16 (j : Nat) : Nat.testBit 0xFFFF j = decide (j < 16) := by
  have h : (0xFFFF : Nat) = 2 ^ 16 - 1 := by decide
  rw [h, Nat.testBit_two_pow_sub_one]

theorem or_mask_testBit (x k i : Nat) (hk : k < 16) :
    (u16 (x ||| (0xFFFF <<< k))).testBit i
      = (decide (i < 16) && (x.testBit i || decide (k ≤ i))) := by
  have h : u16 (x ||| (0xFFFF <<< k)) = (x ||| (0xFFFF <<< k)) % 2 ^ 16 := rfl
  rw [h, Nat.testBit_mod_two_pow, Nat.testBit_or, Nat.testBit_shiftLeft, testBit_mask16]
  by_cases h16 : i < 16
  · by_cases hki : k ≤ i
    · have : i - k < 16 := by omega
      simp [h16, hki, this]
    · simp [h16, hki]
  · simp [h16]

theorem sign_extend_set (x k : Nat) (hb : x.testBit (k - 1) = true) :
    sign_extend x k = u16 (x ||| (0xFFFF <<< k)) := by
  unfold sign_extend
  rw [if_pos ((sign_test_iff_testBit x k).2 hb)]

theorem sign_extend_clear (x k : Nat) (hb : x.testBit (k - 1) = false) :
    sign_extend x k = x := by
  unfold sign_extend
  rw [if_neg]
  intro h
  rw [(sign_test_iff_testBit x k).1 h] at hb
  exact Bool.noConfusion hb

theorem testBit_of_lt16 (x i : Nat) (hx : x < 65536) (hi : 16 ≤ i) : x.testBit i = false := by
  apply Nat.testBit_lt_two_pow
  have h : 2 ^ 16 ≤ 2 ^ i := Nat.pow_le_pow_right (by decide) hi
  omega

/-- Bits of `sign_extend x k` for a 16-bit `x` whose bit `k - 1` is set. -/
theorem sign_extend_set_testBit (x k i : Nat) (hk : k < 16) (hx : x < 65536)
    (hb : x.testBit (k - 1) = true) :
    (sign_extend x k).testBit i = (x.testBit i || (decide (k ≤ i) && decide (i < 16))) := by
  rw [sign_extend_set x k hb, or_mask_testBit x k i hk]
  by_cases h16 : i < 16
  · simp [h16]
  · simp [h16, testBit_of_lt16 x i hx (by omega)]

theorem sign_extend_lt (x k : Nat) (hx : x < 65536) : sign_extend x k < 65536 := by
  unfold sign_extend u16
  split
  · omega
  · exact hx

theorem sign_extend_low_bits (x k : Nat) (hk : k < 16) (hx : x < 65536) :
    sign_extend x k % 2 ^ k = x % 2 ^ k := by
  cases hb : x.testBit (k - 1) with
  | false => rw [sign_extend_clear x k hb]
  | true =>
    apply Nat.eq_of_testBit_eq
    intro i
    rw [Nat.testBit_mod_two_pow, Nat.testBit_mod_two_pow,
      sign_extend_set_testBit x k i hk hx hb]
    by_cases hik : i < k
    · have : ¬ k ≤ i := by omega
      simp [hik, this]
    · simp [hik]

theorem sign_extend_idem (x k : Nat) (hk : k < 16) (hx : x < 65536) :
    sign_extend (sign_extend x k) k = sign_extend x k := by
  cases hb : x.testBit (k - 1) with
  | false => rw [sign_extend_clear x k hb, sign_extend_clear x k hb]
  | true =>
    have hb2 : (sign_extend x k).testBit (k - 1) = true := by
      rw [sign_extend_set_testBit x k (k - 1) hk hx hb, hb]
      rfl
    apply Nat.eq_of_testBit_eq
    intro i
    rw [sign_extend_set_testBit (sign_extend x k) k i hk (sign_extend_lt x k hx) hb2,
      sign_extend_set_testBit x k i hk hx hb]
    cases x.testBit i <;> cases decide (k ≤ i) <;> cases decide (i < 16) <;> rfl

theorem sign_extend_mod_of_set (x k : Nat) (hk1 : 1 ≤ k) (hk : k < 16) (hx : x < 65536)
    (hb : x.testBit (k - 1) = true) : sign_extend x k = sign_extend (x % 2 ^ k) k := by
  have hlt : x % 2 ^ k < 65536 := Nat.lt_of_le_of_lt (Nat.mod_le _ _) hx
  have hb2 : (x % 2 ^ k).testBit (k - 1) = true := by
    rw [Nat.testBit_mod_two_pow, hb]
    have : k - 1 < k := by omega
    simp [this]
  apply Nat.eq_of_testBit_eq
  intro i
  rw [sign_extend_set_testBit x k i hk hx hb,
    sign_extend_set_testBit (x % 2 ^ k) k i hk hlt hb2, Nat.testBit_mod_two_pow]
  by_cases hik : i < k
  · simp [hik]
  · by_cases h16 : i < 16
    · have : k ≤ i := by omega
      simp [this, h16]
    · simp [hik, h16, testBit_of_lt16 x i hx (by omega)]

/-- C12 (counterexample): the word `0x1025` has bit 4 clear and bit 5 set;
`sign_extend(0x1025, 5)` returns it unchanged, so bits 5 and 12 of the result
are `1` although bit 4 of the argument is `0`, and the result differs from
that of `0x0005`, which has the same low five bits. -/
theorem sign_extend_high_bits_counterexample :
    (0x1025 < 65536 ∧ 1 ≤ 5 ∧ 5 < 16)
      ∧ sign_extend 0x1025 5 = 0x1025
      ∧ Nat.testBit 0x1025 (5 - 1) = false
      ∧ (sign_extend 0x1025 5).testBit 5 = true
      ∧ (sign_extend 0x1025 5).testBit 12 = true
      ∧ 0x1025 % 2 ^ 5 = 0x0005 % 2 ^ 5
      ∧ sign_extend 0x1025 5 ≠ sign_extend 0x0005 5 := by
  decide

/-- C12 (amended): for a 16-bit `x` and a width `1 ≤ k < 16`: when bit `k - 1`
of `x` is `1`, every bit of the result at a position `k .. 15` is `1` and the
result depends only on the low `k` bits of `x`; when bit `k - 1` is `0` the
result is `x` unchanged; hence for a `k`-bit field (`x < 2 ^ k`) every bit of
the result at a position `k .. 15` equals bit `k - 1` of `x`. -/
theorem sign_extend_replicates (x k : Nat) (hk1 : 1 ≤ k) (hk : k < 16) (hx : x < 65536) :
    (x.testBit (k - 1) = true →
        (∀ i, k ≤ i → i < 16 → (sign_extend x k).testBit i = true)
          ∧ sign_extend x k = sign_extend (x % 2 ^ k) k)
      ∧ (x.testBit (k - 1) = false → sign_extend x k = x)
      ∧ (x < 2 ^ k →
          ∀ i, k ≤ i → i < 16 → (sign_extend x k).testBit i = x.testBit (k - 1)) := by
  refine ⟨fun hb => ⟨fun i hki h16 => ?_, sign_extend_mod_of_set x k hk1 hk hx hb⟩,
    sign_extend_clear x k, fun hf i hki h16 => ?_⟩
  · rw [sign_extend_set_testBit x k i hk hx hb]
    simp [hki, h16]
  · cases hb : x.testBit (k - 1) with
    | true =>
      rw [sign_extend_set_testBit x k i hk hx hb]
      simp [hki, h16]
    | false =>
      rw [sign_extend_clear x k hb]
      apply Nat.testBit_lt_two_pow
      exact Nat.lt_of_lt_of_le hf (Nat.pow_le_pow_right (by decide) hki)

theorem sign_extend_replicates_witness :
    (1 ≤ 5 ∧ 5 < 16 ∧ 0x1F < 65536 ∧ Nat.testBit 0x1F (5 - 1) = true ∧ 0x1F < 2 ^ 5)
      ∧ ((∀ i, 5 ≤ i → i < 16 → (sign_extend 0x1F 5).testBit i = true)
          ∧ sign_extend 0x1F 5 = sign_extend (0x1F % 2 ^ 5) 5)
      ∧ (∀ i, 5 ≤ i → i < 16 → (sign_extend 0x1F 5).testBit i = Nat.testBit 0x1F (5 - 1)) :=
  ⟨by decide,
    (sign_extend_replicates 0x1F 5 (by decide) (by decide) (by decide)).1 (by decide),
    (sign_extend_replicates 0x1F 5 (by decide) (by decide) (by decide)).2.2 (by decide)⟩

/-- C17: for a 16-bit `x` and a width `1 ≤ k < 16`, `sign_extend(x, k)` keeps
the low `k` bits of `x`, returns `x` itself when bit `k - 1` of `x` is `0`, and
applying it twice gives the same as applying it once. -/
theorem sign_extend_low_bits_idempotent (x k : Nat) (_hk1 : 1 ≤ k) (hk : k < 16)
    (hx : x < 65536) :
    sign_extend x k % 2 ^ k = x % 2 ^ k
      ∧ (x.testBit (k - 1) = false → sign_extend x k = x)
      ∧ sign_extend (sign_extend x k) k = sign_extend x k :=
  ⟨sign_extend_low_bits x k hk hx, sign_extend_clear x k, sign_extend_idem x k hk hx⟩

theorem sign_extend_low_bits_idempotent_witness :
    (1 ≤ 9 ∧ 9 < 16 ∧ 0xABCD < 65536)
      ∧ (sign_extend 0xABCD 9 % 2 ^ 9 = 0xABCD % 2 ^ 9
          ∧ (Nat.testBit 0xABCD (9 - 1) = false → sign_extend 0xABCD 9 = 0xABCD)
          ∧ sign_extend (sign_extend 0xABCD 9) 9 = sign_extend 0xABCD 9) :=
  ⟨by decide, sign_extend_low_bits_idempotent 0xABCD 9 (by decide) (by decide) (by decide)⟩

/-- C16: `swap16` is an involution on 16-bit words, `swap16(swap16(x)) = x`;
its result is again a 16-bit word, and two 16-bit words with the same image
are equal. -/
theorem swap16_involution (x y : Nat) (hx : x < 65536) (hy : y < 65536) :
    swap16 (swap16 x) = x
      ∧ swap16 x < 65536
      ∧ (swap16 x = swap16 y → x = y) := by
  have inv : ∀ z, z < 65536 → swap16 (swap16 z) = z := by
    intro z hz
    have h1 := swap16_eq z hz
    have hlt : swap16 z < 65536 := by rw [h1]; omega
    rw [swap16_eq _ hlt, h1]
    omega
  have hlt : swap16 x < 65536 := by rw [swap16_eq x hx]; omega
  refine ⟨inv x hx, hlt, fun h => ?_⟩
  rw [← inv x hx, ← inv y hy, h]

theorem swap16_involution_witness :
    (0x1025 < 65536 ∧ 0xF025 < 65536)
      ∧ (swap16 (swap16 0x1025) = 0x1025
          ∧ swap16 0x1025 < 65536
          ∧ (swap16 0x1025 = swap16 0xF025 → 0x1025 = 0xF025)) :=
  ⟨by decide, swap16_involution 0x1025 0xF025 (by decide) (by decide)⟩

/-! ## Frame conditions -/

/-- C13: `mem_read` touches only the keyboard cells.  For `a ≠ 0xFE00`
(`0xFE02` included) it returns `memory[a]` and changes neither memory, nor
registers, nor the console.  `mem_read(0xFE00)` changes no cell other than
`memory[0xFE00]` and `memory[0xFE02]` and no register; with no key pending it
also leaves `memory[0xFE02]` and the console as they were. -/
theorem mem_read_frame (s : Machine) (con : Console) (a : Nat) :
    (a ≠ 0xFE00 → mem_read s con a = (s.memory a, s, con))
      ∧ (∀ b, b ≠ 0xFE00 → b ≠ 0xFE02 →
          (mem_read s con 0xFE00).2.1.memory b = s.memory b)
      ∧ (mem_read s con 0xFE00).2.1.reg = s.reg
      ∧ ((mem_read s [] 0xFE00).2.1.memory 0xFE02 = s.memory 0xFE02
          ∧ (mem_read s [] 0xFE00).2.2 = []) := by
  refine ⟨fun ha => mem_read_plain s con a ha, fun b hs hd => ?_, ?_, ?_, rfl⟩
  · unfold mem_read
    rw [if_pos (show (0xFE00 : Nat) = MR_KBSR from rfl)]
    split
    · show setCell (setCell s.memory MR_KBSR (1 <<< 15)) MR_KBDR _ b = s.memory b
      rw [setCell_other _ MR_KBDR _ b hd, setCell_other _ MR_KBSR _ b hs]
    · exact setCell_other _ MR_KBSR _ b hs
  · unfold mem_read
    rw [if_pos (show (0xFE00 : Nat) = MR_KBSR from rfl)]
    split <;> rfl
  · exact setCell_other s.memory MR_KBSR 0 0xFE02 (by decide)

theorem mem_read_frame_witness :
    (0xFE02 ≠ 0xFE00 ∧ mem_read sampleMachine [0x41] 0xFE02
        = (sampleMachine.memory 0xFE02, sampleMachine, [0x41]))
      ∧ ((0x3000 ≠ 0xFE00 ∧ 0x3000 ≠ 0xFE02)
          ∧ (mem_read sampleMachine [0x41] 0xFE00).2.1.memory 0x3000
              = sampleMachine.memory 0x3000) :=
  ⟨⟨by decide, (mem_read_frame sampleMachine [0x41] 0xFE02).1 (by decide)⟩,
    by decide,
    (mem_read_frame sampleMachine [0x41] 0xFE02).2.1 0x3000 (by decide) (by decide)⟩

theorem max_read_le (origin : Nat) : origin + u16 (MEMORY_MAX - origin) ≤ 65536 ∨ 65536 ≤ origin := by
  have h : MEMORY_MAX = 65536 := by decide
  rw [h]
  unfold u16
  omega

/-- C14: for an image of `N` words at any 16-bit origin (also one longer than
the space above the origin), `read_image_file` changes no cell below `origin`,
no cell at `origin + N` or above, no cell beyond `0xFFFF` (so nothing wraps
around to low addresses), and no register. -/
theorem read_image_file_frame (uninit origin : Nat) (ws : List Nat) (s : Machine)
    (ho : origin < 65536) (hws : ∀ w ∈ ws, w < 65536) :
    (∀ j, j < origin →
        (read_image_file uninit (imageBytes origin ws) s).memory j = s.memory j)
      ∧ (∀ j, origin + ws.length ≤ j →
          (read_image_file uninit (imageBytes origin ws) s).memory j = s.memory j)
      ∧ (∀ j, 65536 ≤ j →
          (read_image_file uninit (imageBytes origin ws) s).memory j = s.memory j)
      ∧ (read_image_file uninit (imageBytes origin ws) s).reg = s.reg := by
  have hle := max_read_le origin
  refine ⟨fun j hj => ?_, fun j hj => ?_, fun j hj => ?_, rfl⟩
  · rw [read_image_file_memory uninit origin ws s ho hws, if_neg (by omega)]
  · rw [read_image_file_memory uninit origin ws s ho hws, if_neg (by omega)]
  · rw [read_image_file_memory uninit origin ws s ho hws, if_neg (by omega)]

theorem read_image_file_frame_witness :
    (0xFFFE < 65536 ∧ ∀ w ∈ [0x1111, 0x2222, 0x3333], w < 65536)
      ∧ ((∀ j, j < 0xFFFE →
          (read_image_file 0 (imageBytes 0xFFFE [0x1111, 0x2222, 0x3333]) sampleMachine).memory j
            = sampleMachine.memory j)
        ∧ (∀ j, 0xFFFE + [0x1111, 0x2222, 0x3333].length ≤ j →
          (read_image_file 0 (imageBytes 0xFFFE [0x1111, 0x2222, 0x3333]) sampleMachine).memory j
            = sampleMachine.memory j)
        ∧ (∀ j, 65536 ≤ j →
          (read_image_file 0 (imageBytes 0xFFFE [0x1111, 0x2222, 0x3333]) sampleMachine).memory j
            = sampleMachine.memory j)
        ∧ (read_image_file 0 (imageBytes 0xFFFE [0x1111, 0x2222, 0x3333]) sampleMachine).reg
            = sampleMachine.reg) :=
  ⟨by decide, read_image_file_frame 0 0xFFFE [0x1111, 0x2222, 0x3333] sampleMachine
    (by decide) (by decide)⟩

theorem update_flags_reg_other (s : Machine) (r i : Nat) (hi : i ≠ R_COND) :
    (update_flags s r).reg i = s.reg i := by
  unfold update_flags
  split
  · exact setCell_other _ _ _ _ hi
  · split <;> exact setCell_other _ _ _ _ hi

theorem update_flags_memory (s : Machine) (r : Nat) : (update_flags s r).memory = s.memory := by
  unfold update_flags
  split
  · rfl
  · split <;> rfl

theorem update_flags_eq (s : Machine) (r : Nat) :
    update_flags s r
      = Machine.mk s.memory (setCell s.reg R_COND ((update_flags s r).reg R_COND)) := by
  unfold update_flags
  split
  · simp [setCell_same]
  · split <;> simp [setCell_same]

theorem setCell_setCell (a : Nat → Nat) (i v w : Nat) :
    setCell (setCell a i v) i w = setCell a i w := by
  funext j
  unfold setCell
  split <;> rfl

/-- C15: for a register index `r` in `0 .. 7`, `update_flags(r)` changes only
`COND`: `R0 .. R7`, `PC` and every memory cell keep their values; the new
`COND` is determined by `reg[r]` alone; and a second `update_flags(r)` changes
nothing more. -/
theorem update_flags_frame (s s' : Machine) (r : Nat) (hr : r < 8) :
    (∀ i, i ≠ R_COND → (update_flags s r).reg i = s.reg i)
      ∧ (update_flags s r).reg R_PC = s.reg R_PC
      ∧ (update_flags s r).memory = s.memory
      ∧ (s'.reg r = s.reg r →
          (update_flags s' r).reg R_COND = (update_flags s r).reg R_COND)
      ∧ update_flags (update_flags s r) r = update_flags s r := by
  have hrc : r ≠ R_COND := by
    have : R_COND = 9 := rfl
    omega
  refine ⟨fun i hi => update_flags_reg_other s r i hi,
    update_flags_reg_other s r R_PC (by decide), update_flags_memory s r, fun h => ?_, ?_⟩
  · rw [update_flags_cases, update_flags_cases, h]
  · have hsame : (update_flags s r).reg r = s.reg r := update_flags_reg_other s r r hrc
    have hc : (update_flags (update_flags s r) r).reg R_COND = (update_flags s r).reg R_COND := by
      rw [update_flags_cases, update_flags_cases, hsame]
    rw [update_flags_eq (update_flags s r) r, hc, update_flags_memory]
    conv => rhs; rw [update_flags_eq s r]
    conv => lhs; rw [update_flags_eq s r]
    simp only [setCell_setCell, setCell_same]

theorem update_flags_frame_witness :
    5 < 8
      ∧ ((∀ i, i ≠ R_COND → (update_flags sampleMachine 5).reg i = sampleMachine.reg i)
        ∧ (update_flags sampleMachine 5).reg R_PC = sampleMachine.reg R_PC
        ∧ (update_flags sampleMachine 5).memory = sampleMachine.memory
        ∧ ((mem_write sampleMachine 0 1).reg 5 = sampleMachine.reg 5 →
            (update_flags (mem_write sampleMachine 0 1) 5).reg R_COND
              = (update_flags sampleMachine 5).reg R_COND)
        ∧ update_flags (update_flags sampleMachine 5) 5 = update_flags sampleMachine 5) :=
  ⟨by decide, update_flags_frame sampleMachine (mem_write sampleMachine 0 1) 5 (by decide)⟩

/-! ## Execution of a loaded program -/

theorem setReg_reg_same (s : Machine) (r v : Nat) : (setReg s r v).reg r = v :=
  setCell_same _ _ _

theorem setReg_reg_other (s : Machine) (r v i : Nat) (h : i ≠ r) :
    (setReg s r v).reg i = s.reg i :=
  setCell_other _ _ _ _ h

theorem setReg_memory (s : Machine) (r v : Nat) : (setReg s r v).memory = s.memory := rfl

/-- A step whose fetched word has opcode ADD. -/
theorem step_add (enc : Encoding) (v : VM) (instr : Nat)
    (hpc : v.machine.reg R_PC ≠ MR_KBSR)
    (hinstr : v.machine.memory (v.machine.reg R_PC) = instr)
    (hop : instr >>> 12 = OP_ADD) :
    step enc v
      = some (VM.mk
          (update_flags
            (setReg (setReg v.machine R_PC (u16 (v.machine.reg R_PC + 1))) (enc.dest instr)
              (u16 (v.machine.reg (enc.src1 instr)
                + (if enc.immMode instr then sign_extend (enc.imm5 instr) 5
                   else v.machine.reg (enc.src2 instr)))))
            (enc.dest instr))
          v.console v.output v.running) := by
  have h1 : ((enc.src1 instr : Fin 8) : Nat) ≠ R_PC := by
    have := (enc.src1 instr).isLt
    have h8 : R_PC = 8 := rfl
    omega
  have h2 : ((enc.src2 instr : Fin 8) : Nat) ≠ R_PC := by
    have := (enc.src2 instr).isLt
    have h8 : R_PC = 8 := rfl
    omega
  unfold step
  rw [mem_read_plain _ _ _ hpc]
  simp only [hinstr]
  unfold execute
  simp only [hop, if_true, setReg_reg_other _ _ _ _ h1, setReg_reg_other _ _ _ _ h2]

/-- A step whose fetched word is TRAP with the HALT vector. -/
theorem step_trap_halt (enc : Encoding) (v : VM) (instr : Nat)
    (hpc : v.machine.reg R_PC ≠ MR_KBSR)
    (hinstr : v.machine.memory (v.machine.reg R_PC) = instr)
    (hop : instr >>> 12 = OP_TRAP) (hvect : instr &&& 0xFF = TRAP_HALT) :
    step enc v
      = some (VM.mk
          (setReg (setReg v.machine R_PC (u16 (v.machine.reg R_PC + 1))) R_R7
            (u16 (v.machine.reg R_PC + 1)))
          v.console v.output false) := by
  unfold step
  rw [mem_read_plain _ _ _ hpc]
  simp only [hinstr]
  unfold execute
  simp [hop, hvect, OP_TRAP, OP_ADD, OP_AND, OP_NOT, OP_BR, OP_JMP, OP_JSR, OP_LD, OP_LDI,
    OP_LDR, OP_LEA, OP_ST, OP_STI, OP_STR, trap, TRAP_HALT, TRAP_GETC, TRAP_OUT, TRAP_PUTS,
    TRAP_IN, TRAP_PUTSP, setReg_reg_same]

theorem run_stopped (enc : Encoding) (fuel : Nat) (v : VM) (h : v.running = false) :
    run enc fuel v = some v := by
  cases fuel with
  | zero => rfl
  | succ n => simp [run, h]

theorem run_succ_running (enc : Encoding) (fuel : Nat) (v w : VM) (h : v.running = true)
    (hs : step enc v = some w) : run enc (fuel + 1) v = run enc fuel w := by
  simp [run, h, hs]

theorem addHaltVM_memory (uninit : Nat) (s : Machine) (con : Console) :
    (addHaltVM uninit s con).machine.memory 0x3000 = 0x1025
      ∧ (addHaltVM uninit s con).machine.memory 0x3001 = 0xF025 := by
  have hws : ∀ w ∈ [0x1025, 0xF025], w < 65536 := by decide
  have h0 := read_image_file_loads uninit 0x3000 [0x1025, 0xF025] s (by decide) (by decide) hws
    (by decide) 0 (by decide)
  have h1 := read_image_file_loads uninit 0x3000 [0x1025, 0xF025] s (by decide) (by decide) hws
    (by decide) 1 (by decide)
  exact ⟨h0, h1⟩

theorem addHaltVM_pc (uninit : Nat) (s : Machine) (con : Console) :
    (addHaltVM uninit s con).machine.reg R_PC = 0x3000 := by
  simp [addHaltVM, start, setReg, setCell, R_PC, R_COND]

/-- The state after the ADD of the two-word program. -/
theorem addHaltVM_step1 (enc : Encoding) (uninit : Nat) (s : Machine) (con : Console) :
    ∃ m, step enc (addHaltVM uninit s con) = some (VM.mk m con [] true)
      ∧ m.reg R_PC = 0x3001
      ∧ m.memory = (addHaltVM uninit s con).machine.memory
      ∧ m.reg (enc.dest 0x1025)
          = u16 (s.reg (enc.src1 0x1025)
              + (if enc.immMode 0x1025 then sign_extend (enc.imm5 0x1025) 5
                 else s.reg (enc.src2 0x1025))) := by
  have hpc := addHaltVM_pc uninit s con
  have hmem := (addHaltVM_memory uninit s con).1
  have hd : ((enc.dest 0x1025 : Fin 8) : Nat) < 8 := (enc.dest 0x1025).isLt
  have h1 : ((enc.src1 0x1025 : Fin 8) : Nat) < 8 := (enc.src1 0x1025).isLt
  have h2 : ((enc.src2 0x1025 : Fin 8) : Nat) < 8 := (enc.src2 0x1025).isLt
  have h8 : R_PC = 8 := rfl
  have h9 : R_COND = 9 := rfl
  have hstep := step_add enc (addHaltVM uninit s con) 0x1025 (by rw [hpc]; decide)
    (by rw [hpc]; exact hmem) (by decide)
  refine ⟨_, hstep, ?_, ?_, ?_⟩
  · rw [update_flags_reg_other _ _ _ (by decide), setReg_reg_other _ _ _ _ (by omega),
      setReg_reg_same, hpc]
    rfl
  · rw [update_flags_memory]
    rfl
  · have e1 : (addHaltVM uninit s con).machine.reg (enc.src1 0x1025) = s.reg (enc.src1 0x1025) := by
      simp only [addHaltVM, start]
      rw [setReg_reg_other _ _ _ _ (by omega), setReg_reg_other _ _ _ _ (by omega)]
      rfl
    have e2 : (addHaltVM uninit s con).machine.reg (enc.src2 0x1025) = s.reg (enc.src2 0x1025) := by
      simp only [addHaltVM, start]
      rw [setReg_reg_other _ _ _ _ (by omega), setReg_reg_other _ _ _ _ (by omega)]
      rfl
    rw [update_flags_reg_other _ _ _ (by omega), setReg_reg_same, e1, e2]

/-- C11: after loading the image with origin `0x3000` and the words `0x1025`,
`0xF025` and starting at `PC = 0x3000`, the first step executes the ADD held
at `0x3000` and stays Running with `PC = 0x3001`; the second step executes the
TRAP with vector `0x25` (HALT); every run of at least two steps ends Stopped
with `PC = 0x3002`, whatever the operand encoding, the machine loaded into and
the console input. -/
theorem add_halt_program_stops (enc : Encoding) (uninit : Nat) (s : Machine) (con : Console)
    (fuel : Nat) (hfuel : 2 ≤ fuel) :
    ((addHaltVM uninit s con).machine.memory 0x3000 = 0x1025 ∧ 0x1025 >>> 12 = OP_ADD)
      ∧ ((addHaltVM uninit s con).machine.memory 0x3001 = 0xF025
          ∧ 0xF025 >>> 12 = OP_TRAP ∧ 0xF025 &&& 0xFF = TRAP_HALT)
      ∧ (step enc (addHaltVM uninit s con)).map
            (fun v => (v.running, v.machine.reg R_PC, v.machine.reg (enc.dest 0x1025)))
          = some (true, 0x3001,
              u16 (s.reg (enc.src1 0x1025)
                + (if enc.immMode 0x1025 then sign_extend (enc.imm5 0x1025) 5
                   else s.reg (enc.src2 0x1025))))
      ∧ ((step enc (addHaltVM uninit s con)).bind (step enc)).map
            (fun v => (v.running, v.machine.reg R_PC))
          = some (false, 0x3002)
      ∧ run enc fuel (addHaltVM uninit s con)
          = (step enc (addHaltVM uninit s con)).bind (step enc)
      ∧ (run enc fuel (addHaltVM uninit s con)).map (fun v => (v.running, v.machine.reg R_PC))
          = some (false, 0x3002) := by
  obtain ⟨m, hstep1, hm_pc, hm_mem, hm_dest⟩ := addHaltVM_step1 enc uninit s con
  have hmem := addHaltVM_memory uninit s con
  have hstep2 := step_trap_halt enc (VM.mk m con [] true) 0xF025
    (by show m.reg R_PC ≠ MR_KBSR; rw [hm_pc]; decide)
    (by show m.memory (m.reg R_PC) = 0xF025; rw [hm_pc, hm_mem]; exact hmem.2)
    (by decide) (by decide)
  have hfinal_pc : (setReg (setReg m R_PC (u16 (m.reg R_PC + 1))) R_R7
      (u16 (m.reg R_PC + 1))).reg R_PC = 0x3002 := by
    rw [setReg_reg_other _ _ _ _ (by decide), setReg_reg_same, hm_pc]
    rfl
  have htwo : (step enc (addHaltVM uninit s con)).bind (step enc)
      = some (VM.mk (setReg (setReg m R_PC (u16 (m.reg R_PC + 1))) R_R7
          (u16 (m.reg R_PC + 1))) con [] false) := by
    rw [hstep1, Option.some_bind, hstep2]
  have hrun : run enc fuel (addHaltVM uninit s con)
      = (step enc (addHaltVM uninit s con)).bind (step enc) := by
    obtain ⟨n, rfl⟩ : ∃ n, fuel = n + 2 := ⟨fuel - 2, by omega⟩
    rw [run_succ_running enc (n + 1) (addHaltVM uninit s con) _ rfl hstep1,
      run_succ_running enc n _ _ rfl hstep2, run_stopped enc n _ rfl, htwo]
  refine ⟨⟨hmem.1, by decide⟩, ⟨hmem.2, by decide, by decide⟩, ?_, ?_, hrun, ?_⟩
  · rw [hstep1]
    simp only [Option.map_some', hm_pc, hm_dest]
  · rw [htwo]
    simp only [Option.map_some', hfinal_pc]
  · rw [hrun, htwo]
    simp only [Option.map_some', hfinal_pc]

theorem add_halt_program_stops_witness :
    2 ≤ 5
      ∧ (run lc3Encoding 5 (addHaltVM 0 sampleMachine [])).map
            (fun v => (v.running, v.machine.reg R_PC))
          = some (false, 0x3002)
      ∧ (step lc3Encoding (addHaltVM 0 sampleMachine [])).map
            (fun v => (v.running, v.machine.reg R_PC, v.machine.reg (lc3Encoding.dest 0x1025)))
          = some (true, 0x3001,
              u16 (sampleMachine.reg (lc3Encoding.src1 0x1025)
                + (if lc3Encoding.immMode 0x1025 then sign_extend (lc3Encoding.imm5 0x1025) 5
                   else sampleMachine.reg (lc3Encoding.src2 0x1025))))
      ∧ (run lc3Encoding 5 (addHaltVM 0 sampleMachine [])).map (fun v => v.machine.reg R_R0)
          = some 12 :=
  ⟨by decide,
    (add_halt_program_stops lc3Encoding 0 sampleMachine [] 5 (by decide)).2.2.2.2.2,
    (add_halt_program_stops lc3Encoding 0 sampleMachine [] 5 (by decide)).2.2.1,
    by decide⟩

end LC3
